import Mathlib

/-!
A shallow embedding of the core of `app.py` (a study-session focus dashboard):
time arithmetic (`minutes_between`), the KPI engine (`compute_kpis`), the
weekday aggregation used for charting, the session store (`add_session`,
`delete_session`), the JSON export/import of the store, and the date-range
filter.  Python machine integers are modelled as `ℤ`, Python float arithmetic
on the KPI ratios as exact arithmetic in `ℚ`, calendar dates as `ℤ` day
indices ordered like calendar dates, and the JSON documents produced by
`json.dumps` / consumed by `json.loads` at the level of their value tree.
-/

namespace FocusDashboard

/-! ### Time arithmetic (`parse_time_hhmm`, `minutes_between`, app.py:17-25) -/

/-- Characters of a string with leading and trailing whitespace removed:
the model of Python `str.strip()`. -/
def trimChars (cs : List Char) : List Char :=
  ((cs.dropWhile Char.isWhitespace).reverse.dropWhile Char.isWhitespace).reverse

/-- Split a character list on the `:` separator, the model of the field
splitting performed by `datetime.strptime(_, "%H:%M")`. -/
def splitColon : List Char → List (List Char)
  | [] => [[]]
  | c :: rest =>
    let r := splitColon rest
    if c = ':' then [] :: r
    else
      match r with
      | [] => [[c]]
      | g :: gs => (c :: g) :: gs

/-- Read a nonempty all-digit character list as a natural number. -/
def digitsToNat? (cs : List Char) : Option ℕ :=
  if cs = [] then none
  else if cs.all Char.isDigit then
    some (cs.foldl (fun n c => 10 * n + (c.toNat - 48)) 0)
  else none

/-- Model of `parse_time_hhmm` (app.py:17-18): strip the string, parse it as
`%H:%M` with hour in `[0,23]` and minute in `[0,59]`, and return the
time of day as minutes after midnight; `none` models the `ValueError`
raised by `strptime` on a malformed string. -/
def parse_time_hhmm (t : String) : Option ℕ :=
  match splitColon (trimChars t.toList) with
  | [h, m] =>
    match digitsToNat? h, digitsToNat? m with
    | some hh, some mm =>
      if hh ≤ 23 ∧ mm ≤ 59 then some (hh * 60 + mm) else none
    | _, _ => none
  | _ => none

/-- Model of `minutes_between` (app.py:20-25): parse both endpoints, add one
day to the end time when it is not strictly after the start time, and return
the difference in whole minutes. -/
def minutes_between (start stop : String) : Option ℤ :=
  match parse_time_hhmm start, parse_time_hhmm stop with
  | some s, some e => some (if e ≤ s then (e : ℤ) + 1440 - s else (e : ℤ) - s)
  | _, _ => none

/-! ### Clamp and the record model fed to the KPI engine -/

/-- Model of `clamp` (app.py:27-28). -/
def clamp (v lo hi : ℤ) : ℤ := max lo (min hi v)

/-- One row of the flattened data frame handed to `compute_kpis` and to the
weekday aggregation (the fields of `store_to_flat_rows` that those consumers
read, app.py:38-57): calendar date as a day index ordered like dates,
weekday label, and the three integer metrics. -/
structure Rec where
  date : ℤ
  weekday : String
  duration_min : ℤ
  focused_min : ℤ
  pause_count : ℤ
deriving Repr, DecidableEq

/-- The defensive per-row clamp `clamp(int(r["focused_min"]), 0, int(r["duration_min"]))`
applied inside `compute_kpis` (app.py:99) and the weekday chart (app.py:291). -/
def clampedFocused (r : Rec) : ℤ := clamp r.focused_min 0 r.duration_min

/-- The KPI summary dict returned by `compute_kpis` (app.py:106-114). -/
structure KPI where
  total : ℤ
  focused : ℤ
  pause : ℤ
  ratio : ℚ
  avg_focus : ℚ
  pause_rate : ℚ
  sessions : ℕ
deriving Repr, DecidableEq

/-- Model of `compute_kpis` (app.py:94-114): `none` for an empty frame,
otherwise the sums, the guarded ratio `focused/total`, the 0-5 score
`ratio * 5`, the guarded pause rate `pause / (total/60)`, and the row count. -/
def compute_kpis (rs : List Rec) : Option KPI :=
  if rs = [] then none
  else
    let total := (rs.map Rec.duration_min).sum
    let focused := (rs.map clampedFocused).sum
    let pause := (rs.map Rec.pause_count).sum
    let ratio : ℚ := if 0 < total then (focused : ℚ) / (total : ℚ) else 0
    let avg_focus : ℚ := ratio * 5
    let pause_rate : ℚ := if 0 < total then (pause : ℚ) / ((total : ℚ) / 60) else 0
    some ⟨total, focused, pause, ratio, avg_focus, pause_rate, rs.length⟩

/-! ### Weekday aggregation (app.py:11-12, 290-293) -/

/-- The canonical weekday order `WEEK_ORDER` (app.py:11), Monday..Sunday as
Korean labels. -/
def WEEK_ORDER : List String := ["월", "화", "수", "목", "금", "토", "일"]

/-- Sum of the clamped focused minutes of the rows whose weekday label is `w`:
one group of `fdf.groupby("weekday")["focused_clamped"].sum()` (app.py:292). -/
def weekdaySum (rs : List Rec) (w : String) : ℤ :=
  ((rs.filter (fun r => r.weekday == w)).map clampedFocused).sum

/-- Model of the weekday table `by_w` (app.py:290-293): grouping the clamped
focused minutes by weekday and reindexing on `WEEK_ORDER` with fill value 0
yields, for each canonical weekday in order, the sum over matching rows. -/
def by_w (rs : List Rec) : List (String × ℤ) :=
  WEEK_ORDER.map (fun w => (w, weekdaySum rs w))

/-! ### Date-range filter (app.py:220-221) -/

/-- Model of the mask `(df.date_obj.dt.date >= start_date) & (df.date_obj.dt.date <= end_date)`
followed by `df.loc[mask]` (app.py:220-221): keep the rows whose calendar
date lies between the bounds, both inclusive. -/
def selectRange (rs : List Rec) (startDate endDate : ℤ) : List Rec :=
  rs.filter (fun r => startDate ≤ r.date && r.date ≤ endDate)

/-! ### Session store (app.py:33-92) -/

/-- One session dict as stored in a date bucket (app.py:70-79). -/
structure Sess where
  id : String
  subject : String
  start : String
  stop : String
  duration_min : ℤ
  focused_min : ℤ
  pause_count : ℤ
  created_at : String
deriving Repr, DecidableEq

/-- One date bucket `{"weekday": ..., "sessions": [...]}` (app.py:63). -/
structure Day where
  weekday : String
  sessions : List Sess
deriving Repr, DecidableEq

/-- The `store["days"]` mapping: a Python dict from date string to bucket,
modelled as its insertion-ordered association list.  `init_store`
(app.py:33-36) starts it empty. -/
abbrev Store := List (String × Day)

/-- The session dict built by `add_session` (app.py:66-79): trimmed subject
defaulting to `"공부"` when empty, the focused minutes clamped into
`[0, duration]`, and the pause count floored at 0.  The generated id and the
creation timestamp are taken as parameters (they depend on a wall clock and
a salted hash). -/
def mk_session (sid subject start stop : String) (dur focused pause : ℤ)
    (created : String) : Sess :=
  { id := sid
    subject := if String.mk (trimChars subject.toList) = "" then "공부"
               else String.mk (trimChars subject.toList)
    start := String.mk (trimChars start.toList)
    stop := String.mk (trimChars stop.toList)
    duration_min := dur
    focused_min := clamp focused 0 dur
    pause_count := max 0 pause
    created_at := created }

/-- Model of `add_session` (app.py:59-80): create the date bucket if absent,
compute the duration from the time strings (`none` models the exception on
unparseable times — the caller only invokes `add_session` after
`minutes_between` succeeded on the same strings, app.py:151,167-170), and
append the new session dict to the bucket. -/
def add_session (st : Store) (ds wd subject start stop : String)
    (pause focused : ℤ) (sid created : String) : Option Store :=
  match minutes_between start stop with
  | none => none
  | some dur =>
    let st1 : Store :=
      if st.any (fun e => e.1 == ds) then st else st ++ [(ds, ⟨wd, []⟩)]
    let sess := mk_session sid subject start stop dur focused pause created
    some (st1.map (fun e =>
      if e.1 = ds then (e.1, ⟨e.2.weekday, e.2.sessions ++ [sess]⟩) else e))

/-- The per-bucket step of `delete_session` (app.py:86-92): drop the
sessions whose id matches, and drop the bucket itself when the deletion
emptied it (`before != after and after == 0`). -/
def deleteBucket (sid : String) (e : String × Day) : Option (String × Day) :=
  let ss := e.2.sessions.filter (fun s => s.id ≠ sid)
  if e.2.sessions.length ≠ ss.length ∧ ss.length = 0 then none
  else some (e.1, ⟨e.2.weekday, ss⟩)

/-- Model of `delete_session` (app.py:82-92): apply the per-bucket step to
every date bucket in order. -/
def delete_session (st : Store) (sid : String) : Store :=
  st.filterMap (deleteBucket sid)

/-! ### JSON snapshot export/import (app.py:181-194) -/

/-- The value tree of a JSON document, the common model of what `json.dumps`
writes and `json.loads` returns.  Object fields keep their insertion order,
as Python dicts do. -/
inductive J where
  | str : String → J
  | num : ℤ → J
  | arr : List J → J
  | obj : List (String × J) → J

/-- JSON value of one session dict, with the fields in the order
`add_session` creates them (app.py:70-79). -/
def sessToJson (s : Sess) : J :=
  J.obj [("id", J.str s.id), ("subject", J.str s.subject),
         ("start", J.str s.start), ("end", J.str s.stop),
         ("duration_min", J.num s.duration_min),
         ("focused_min", J.num s.focused_min),
         ("pause_count", J.num s.pause_count),
         ("created_at", J.str s.created_at)]

/-- JSON value of one date bucket (app.py:63). -/
def dayToJson (d : Day) : J :=
  J.obj [("weekday", J.str d.weekday),
         ("sessions", J.arr (d.sessions.map sessToJson))]

/-- The exported snapshot `json.dumps(st.session_state.store)` (app.py:181),
modelled as the value tree of the document: the store is the dict
`{"days": {...}}`. -/
def exportStore (st : Store) : J :=
  J.obj [("days", J.obj (st.map (fun e => (e.1, dayToJson e.2))))]

/-- Model of the upload handler (app.py:187-192): if the parsed document is a
dict containing the key `"days"`, the in-memory store becomes
`{"days": obj["days"]}`; otherwise the prior store value is kept. -/
def importSnapshot (j : J) (cur : J) : J :=
  match j with
  | J.obj fields =>
    match fields.lookup "days" with
    | some d => J.obj [("days", d)]
    | none => cur
  | _ => cur

/-- The store states reachable from the initial empty store (app.py:33-36)
through `add_session` and `delete_session` calls. -/
inductive Reachable : Store → Prop where
  | init : Reachable []
  | add {st st' : Store} {ds wd subject start stop : String} {pause focused : ℤ}
      {sid created : String} : Reachable st →
      add_session st ds wd subject start stop pause focused sid created = some st' →
      Reachable st'
  | del {st : Store} {sid : String} : Reachable st → Reachable (delete_session st sid)

/-! ### Example rows used by the spec's own test vectors and by witnesses -/

/-- The spec's first test record: `{duration:60, focused:30, pause:2}`. -/
def exRec1 : Rec := ⟨0, "월", 60, 30, 2⟩

/-- The spec's second test record: `{duration:30, focused:30, pause:1}`. -/
def exRec2 : Rec := ⟨0, "화", 30, 30, 1⟩

/-- C1: for every non-empty collection of records, `compute_kpis` returns a
summary whose `total` is the sum of `duration_min`, `focused` the sum of the
defensively clamped focused minutes, `pause` the sum of `pause_count`,
`ratio` equal to `focused/total` when `total > 0` and `0` otherwise,
`avg_focus = ratio * 5`, `pause_rate` equal to `pause/(total/60)` when
`total > 0` and `0` otherwise, and `sessions` the number of records; in
particular on the spec's two test records it yields `total = 90`,
`focused = 60`, `ratio = 2/3`, `avg_focus = 10/3`, `pause_rate = 2`. -/
theorem compute_kpis_correct :
    (∀ rs : List Rec, rs ≠ [] →
      ∃ k, compute_kpis rs = some k
        ∧ k.total = (rs.map Rec.duration_min).sum
        ∧ k.focused = (rs.map clampedFocused).sum
        ∧ k.pause = (rs.map Rec.pause_count).sum
        ∧ k.ratio = (if 0 < k.total then (k.focused : ℚ) / (k.total : ℚ) else 0)
        ∧ k.avg_focus = k.ratio * 5
        ∧ k.pause_rate = (if 0 < k.total then (k.pause : ℚ) / ((k.total : ℚ) / 60) else 0)
        ∧ k.sessions = rs.length)
    ∧ compute_kpis [exRec1, exRec2] = some ⟨90, 60, 3, 2/3, 10/3, 2, 2⟩ := by
  constructor
  · intro rs h
    unfold compute_kpis
    rw [if_neg h]
    exact ⟨_, rfl, rfl, rfl, rfl, rfl, rfl, rfl, rfl⟩
  · have h : ([exRec1, exRec2] : List Rec) ≠ [] := by decide
    unfold compute_kpis
    rw [if_neg h]
    norm_num [exRec1, exRec2, clampedFocused, clamp]

/-- Witness for C1 at the singleton list of the spec's first test record. -/
theorem compute_kpis_correct_witness :
    ([exRec1] ≠ ([] : List Rec))
    ∧ ∃ k, compute_kpis [exRec1] = some k
        ∧ k.total = ([exRec1].map Rec.duration_min).sum
        ∧ k.focused = ([exRec1].map clampedFocused).sum
        ∧ k.pause = ([exRec1].map Rec.pause_count).sum
        ∧ k.ratio = (if 0 < k.total then (k.focused : ℚ) / (k.total : ℚ) else 0)
        ∧ k.avg_focus = k.ratio * 5
        ∧ k.pause_rate = (if 0 < k.total then (k.pause : ℚ) / ((k.total : ℚ) / 60) else 0)
        ∧ k.sessions = [exRec1].length :=
  ⟨by decide, compute_kpis_correct.1 [exRec1] (by decide)⟩

/-- C2: `compute_kpis` returns the distinct `None` sentinel exactly on the
empty collection: `none` for `[]`, and a `some` summary for every non-empty
collection. -/
theorem compute_kpis_empty_sentinel :
    compute_kpis ([] : List Rec) = none
    ∧ ∀ rs : List Rec, rs ≠ [] → ∃ k, compute_kpis rs = some k := by
  refine ⟨rfl, ?_⟩
  intro rs h
  unfold compute_kpis
  rw [if_neg h]
  exact ⟨_, rfl⟩

/-- Witness for C2 on a concrete non-empty collection. -/
theorem compute_kpis_empty_sentinel_witness :
    ([exRec2] ≠ ([] : List Rec)) ∧ ∃ k, compute_kpis [exRec2] = some k :=
  ⟨by decide, compute_kpis_empty_sentinel.2 [exRec2] (by decide)⟩

/-- C5: on valid `HH:MM` strings, `minutes_between` returns the literal
minute difference when the end time is strictly later in the day than the
start time, and adds 24 hours to the end time before differencing (the
overnight interpretation) when it is not. -/
theorem minutes_between_correct :
    ∀ start stop : String, ∀ s e : ℕ,
      parse_time_hhmm start = some s → parse_time_hhmm stop = some e →
      (s < e → minutes_between start stop = some ((e : ℤ) - s))
      ∧ (e ≤ s → minutes_between start stop = some ((e : ℤ) + 1440 - s)) := by
  intro start stop s e hs he
  constructor
  · intro h
    simp only [minutes_between, hs, he]
    rw [if_neg (by omega)]
  · intro h
    simp only [minutes_between, hs, he]
    rw [if_pos h]

/-- Witness for C5 on the spec's two examples: a same-day interval of 90
minutes and the overnight interval `23:30 → 00:15` of 45 minutes. -/
theorem minutes_between_correct_witness :
    (parse_time_hhmm "10:00" = some 600 ∧ parse_time_hhmm "11:30" = some 690
      ∧ minutes_between "10:00" "11:30" = some 90)
    ∧ (parse_time_hhmm "23:30" = some 1410 ∧ parse_time_hhmm "00:15" = some 15
      ∧ minutes_between "23:30" "00:15" = some 45) := by
  refine ⟨⟨by decide, by decide, ?_⟩, ⟨by decide, by decide, ?_⟩⟩
  · have h :=
      (minutes_between_correct "10:00" "11:30" 600 690 (by decide) (by decide)).1
        (by omega)
    simpa using h
  · have h :=
      (minutes_between_correct "23:30" "00:15" 1410 15 (by decide) (by decide)).2
        (by omega)
    simpa using h

/-- C9: the range filter keeps a subsequence of the input containing exactly
the records whose calendar date lies between the bounds, both inclusive: a
record dated exactly on either bound is kept, and a record one day outside
either bound is dropped. -/
theorem selectRange_correct :
    ∀ (rs : List Rec) (startDate endDate : ℤ), startDate ≤ endDate →
      (selectRange rs startDate endDate).Sublist rs
      ∧ ∀ r ∈ rs,
          (r ∈ selectRange rs startDate endDate ↔
            startDate ≤ r.date ∧ r.date ≤ endDate)
          ∧ (r.date = startDate → r ∈ selectRange rs startDate endDate)
          ∧ (r.date = endDate → r ∈ selectRange rs startDate endDate)
          ∧ (r.date = startDate - 1 → r ∉ selectRange rs startDate endDate)
          ∧ (r.date = endDate + 1 → r ∉ selectRange rs startDate endDate) := by
  intro rs sD eD hle
  refine ⟨List.filter_sublist rs, ?_⟩
  intro r hr
  have hmem : r ∈ selectRange rs sD eD ↔ sD ≤ r.date ∧ r.date ≤ eD := by
    simp [selectRange, List.mem_filter, hr]
  refine ⟨hmem, ?_, ?_, ?_, ?_⟩
  · intro h; exact hmem.mpr ⟨by omega, by omega⟩
  · intro h; exact hmem.mpr ⟨by omega, by omega⟩
  · intro h hc; have := hmem.mp hc; omega
  · intro h hc; have := hmem.mp hc; omega

/-- Witness for C9 on a concrete record and range. -/
theorem selectRange_correct_witness :
    ((0 : ℤ) ≤ (3 : ℤ))
    ∧ (exRec1 ∈ [exRec1])
    ∧ ((exRec1 ∈ selectRange [exRec1] 0 3 ↔ 0 ≤ exRec1.date ∧ exRec1.date ≤ 3)
        ∧ (exRec1.date = 0 → exRec1 ∈ selectRange [exRec1] 0 3)
        ∧ (exRec1.date = 3 → exRec1 ∈ selectRange [exRec1] 0 3)
        ∧ (exRec1.date = 0 - 1 → exRec1 ∉ selectRange [exRec1] 0 3)
        ∧ (exRec1.date = 3 + 1 → exRec1 ∉ selectRange [exRec1] 0 3)) :=
  ⟨by norm_num, by decide,
    (selectRange_correct [exRec1] 0 3 (by norm_num)).2 exRec1 (by decide)⟩

/-! ### Bounds on the clamp, the parser and `minutes_between` (helpers) -/

lemma clampedFocused_nonneg (r : Rec) : 0 ≤ clampedFocused r :=
  le_max_left 0 _

lemma clampedFocused_le (r : Rec) (h : 0 ≤ r.duration_min) :
    clampedFocused r ≤ r.duration_min :=
  max_le h (min_le_left _ _)

lemma parse_time_le (t : String) (v : ℕ) (h : parse_time_hhmm t = some v) :
    v ≤ 1439 := by
  unfold parse_time_hhmm at h
  repeat' split at h
  all_goals simp_all
  omega

lemma minutes_between_bounds (start stop : String) (m : ℤ)
    (h : minutes_between start stop = some m) : 1 ≤ m ∧ m ≤ 1440 := by
  unfold minutes_between at h
  cases hps : parse_time_hhmm start with
  | none => rw [hps] at h; simp at h
  | some s =>
    cases hpe : parse_time_hhmm stop with
    | none => rw [hps, hpe] at h; simp at h
    | some e =>
      rw [hps, hpe] at h
      have hs := parse_time_le start s hps
      have he := parse_time_le stop e hpe
      simp only [Option.some.injEq] at h
      subst h
      split <;> omega

/-- C3: whenever `compute_kpis` produces a summary over records satisfying
the data-model invariant `duration_min ≥ 0`, the defensive clamp forces the
focus ratio into `[0, 1]`, and hence `avg_focus = ratio * 5` lies in `[0, 5]`
with no further clamping applied. -/
theorem focus_ratio_bounds :
    ∀ rs : List Rec, (∀ r ∈ rs, 0 ≤ r.duration_min) →
      ∀ k, compute_kpis rs = some k →
        0 ≤ k.ratio ∧ k.ratio ≤ 1 ∧ k.avg_focus = k.ratio * 5
        ∧ 0 ≤ k.avg_focus ∧ k.avg_focus ≤ 5 := by
  intro rs hd k hk
  have hne : rs ≠ [] := by
    intro h; subst h; simp [compute_kpis] at hk
  unfold compute_kpis at hk
  rw [if_neg hne] at hk
  simp only [Option.some.injEq] at hk
  subst hk
  have h0 : (0 : ℤ) ≤ (rs.map clampedFocused).sum := by
    apply List.sum_nonneg
    intro x hx
    obtain ⟨r, _, rfl⟩ := List.mem_map.mp hx
    exact clampedFocused_nonneg r
  have hle : (rs.map clampedFocused).sum ≤ (rs.map Rec.duration_min).sum :=
    List.sum_le_sum (fun r hr => clampedFocused_le r (hd r hr))
  have hratio : (0 : ℚ) ≤
      (if 0 < (rs.map Rec.duration_min).sum then
        ((rs.map clampedFocused).sum : ℚ) / ((rs.map Rec.duration_min).sum : ℚ)
      else 0) ∧
      (if 0 < (rs.map Rec.duration_min).sum then
        ((rs.map clampedFocused).sum : ℚ) / ((rs.map Rec.duration_min).sum : ℚ)
      else 0) ≤ 1 := by
    split
    case isTrue htot =>
      constructor
      · apply div_nonneg <;> [exact_mod_cast h0; exact_mod_cast le_of_lt htot]
      · rw [div_le_one (by exact_mod_cast htot)]
        exact_mod_cast hle
    case isFalse htot => norm_num
  refine ⟨hratio.1, hratio.2, rfl, ?_, ?_⟩
  · exact mul_nonneg hratio.1 (by norm_num)
  · exact le_trans (mul_le_mul_of_nonneg_right hratio.2 (by norm_num))
      (by norm_num)

/-- Witness for C3 at the singleton of the spec's first test record, whose
summary has `ratio = 1/2` and `avg_focus = 5/2`. -/
theorem focus_ratio_bounds_witness :
    (∀ r ∈ [exRec1], 0 ≤ r.duration_min)
    ∧ (compute_kpis [exRec1] = some ⟨60, 30, 2, 1/2, 5/2, 2, 1⟩)
    ∧ (0 ≤ (⟨60, 30, 2, 1/2, 5/2, 2, 1⟩ : KPI).ratio
        ∧ (⟨60, 30, 2, 1/2, 5/2, 2, 1⟩ : KPI).ratio ≤ 1
        ∧ (⟨60, 30, 2, 1/2, 5/2, 2, 1⟩ : KPI).avg_focus
            = (⟨60, 30, 2, 1/2, 5/2, 2, 1⟩ : KPI).ratio * 5
        ∧ 0 ≤ (⟨60, 30, 2, 1/2, 5/2, 2, 1⟩ : KPI).avg_focus
        ∧ (⟨60, 30, 2, 1/2, 5/2, 2, 1⟩ : KPI).avg_focus ≤ 5) := by
  have hk : compute_kpis [exRec1] = some ⟨60, 30, 2, 1/2, 5/2, 2, 1⟩ := by
    have h : ([exRec1] : List Rec) ≠ [] := by decide
    unfold compute_kpis
    rw [if_neg h]
    norm_num [exRec1, clampedFocused, clamp]
  exact ⟨by decide, hk, focus_ratio_bounds [exRec1] (by decide) _ hk⟩

/-- C10: `minutes_between` always returns a value in `[1, 1440]` — in
particular `1440`, never `0`, when both time strings parse to the same time
of day — so every session record built by `add_session` has
`duration_min ≥ 1`, and over any non-empty collection of records with
`duration_min ≥ 1` the KPI totals are positive, making the `0.0` else
branches of the ratio and the pause rate unreachable for store-created
data. -/
theorem minutes_between_range :
    (∀ start stop : String, ∀ m : ℤ,
        minutes_between start stop = some m → 1 ≤ m ∧ m ≤ 1440)
    ∧ (∀ start stop : String, ∀ v : ℕ,
        parse_time_hhmm start = some v → parse_time_hhmm stop = some v →
        minutes_between start stop = some 1440)
    ∧ (∀ sid subject start stop created : String, ∀ dur focused pause : ℤ,
        minutes_between start stop = some dur →
        1 ≤ (mk_session sid subject start stop dur focused pause created).duration_min)
    ∧ (∀ rs : List Rec, rs ≠ [] → (∀ r ∈ rs, 1 ≤ r.duration_min) →
        ∃ k, compute_kpis rs = some k ∧ 0 < k.total
          ∧ k.ratio = (k.focused : ℚ) / (k.total : ℚ)
          ∧ k.pause_rate = (k.pause : ℚ) / ((k.total : ℚ) / 60)) := by
  refine ⟨fun start stop m h => minutes_between_bounds start stop m h, ?_, ?_, ?_⟩
  · intro start stop v hs he
    simp only [minutes_between, hs, he]
    rw [if_pos le_rfl]
    norm_num
  · intro sid subject start stop created dur focused pause h
    exact (minutes_between_bounds start stop dur h).1
  · intro rs hne hdur
    have hlen : (0 : ℤ) < rs.length := by
      exact_mod_cast List.length_pos.mpr hne
    have hsum : ((rs.map (fun _ => (1 : ℤ))).sum ≤ (rs.map Rec.duration_min).sum) :=
      List.sum_le_sum (fun r hr => hdur r hr)
    have hconst : (rs.map (fun _ => (1 : ℤ))).sum = rs.length := by
      induction rs with
      | nil => simp
      | cons r rs ih => simp_all; omega
    have htot : 0 < (rs.map Rec.duration_min).sum := by
      rw [hconst] at hsum; omega
    unfold compute_kpis
    rw [if_neg hne]
    refine ⟨_, rfl, htot, ?_, ?_⟩ <;> simp only [if_pos htot]

/-- Witness for C10: the full-day interval `10:00 → 10:00`, a session built
from it, and the positive-total KPI branch on a concrete record. -/
theorem minutes_between_range_witness :
    (1 ≤ (45 : ℤ) ∧ (45 : ℤ) ≤ 1440)
    ∧ (minutes_between "10:00" "10:00" = some 1440)
    ∧ (1 ≤ (mk_session "i" "수학" "09:15" "10:00" 45 500 0 "t").duration_min)
    ∧ (∃ k, compute_kpis [exRec1] = some k ∧ 0 < k.total
        ∧ k.ratio = (k.focused : ℚ) / (k.total : ℚ)
        ∧ k.pause_rate = (k.pause : ℚ) / ((k.total : ℚ) / 60)) :=
  ⟨minutes_between_range.1 "09:15" "10:00" 45 (by decide),
   minutes_between_range.2.1 "10:00" "10:00" 600 (by decide) (by decide),
   minutes_between_range.2.2.1 "i" "수학" "09:15" "10:00" "t" 45 500 0 (by decide),
   minutes_between_range.2.2.2 [exRec1] (by decide) (by decide)⟩

/-! ### Weekday aggregation lemmas -/

lemma weekdaySum_cons (r : Rec) (rs : List Rec) (w : String) :
    weekdaySum (r :: rs) w
      = (if r.weekday = w then clampedFocused r else 0) + weekdaySum rs w := by
  by_cases h : r.weekday = w
  · simp [weekdaySum, List.filter_cons, h]
  · simp [weekdaySum, List.filter_cons, h]

lemma sum_weekdaySum_cons (ws : List String) (r : Rec) (rs : List Rec) :
    (ws.map (fun w => weekdaySum (r :: rs) w)).sum
      = (ws.count r.weekday : ℤ) * clampedFocused r
        + (ws.map (fun w => weekdaySum rs w)).sum := by
  induction ws with
  | nil => simp
  | cons w ws ih =>
    rw [List.map_cons, List.sum_cons, List.map_cons, List.sum_cons, ih,
      weekdaySum_cons, List.count_cons]
    by_cases h : r.weekday = w
    · simp only [h, if_pos rfl, beq_self_eq_true, if_true]
      push_cast
      ring
    · have h2 : ¬((w == r.weekday) = true) := by
        simp [beq_iff_eq]
        exact fun hc => h hc.symm
      simp only [if_neg h, if_neg h2]
      push_cast
      ring

lemma sum_weekdaySum (rs : List Rec) (hw : ∀ r ∈ rs, r.weekday ∈ WEEK_ORDER) :
    (WEEK_ORDER.map (fun w => weekdaySum rs w)).sum = (rs.map clampedFocused).sum := by
  induction rs with
  | nil => decide
  | cons r rs ih =>
    rw [sum_weekdaySum_cons,
      List.count_eq_one_of_mem (by decide) (hw r (by simp)),
      List.map_cons, List.sum_cons,
      ih (fun x hx => hw x (List.mem_cons_of_mem _ hx))]
    push_cast
    ring

/-- C4: over any collection of records (whose weekday labels are among the 7
canonical ones, as the data model requires), the weekday table has exactly 7
entries, in the fixed `WEEK_ORDER` order independent of the input, each entry
holding the sum of the clamped focused minutes of the records with that
weekday (0 when none match), and the 7 entries sum to the total clamped
focused minutes of the whole input. -/
theorem by_w_correct :
    ∀ rs : List Rec, (∀ r ∈ rs, r.weekday ∈ WEEK_ORDER) →
      (by_w rs).length = 7
      ∧ (by_w rs).map Prod.fst = WEEK_ORDER
      ∧ (∀ p ∈ by_w rs, p.2 =
          ((rs.filter (fun r => r.weekday == p.1)).map clampedFocused).sum)
      ∧ ((by_w rs).map Prod.snd).sum = (rs.map clampedFocused).sum := by
  intro rs hw
  refine ⟨by simp [by_w, WEEK_ORDER], ?_, ?_, ?_⟩
  · simp [by_w, List.map_map, Function.comp_def]
  · intro p hp
    rw [by_w, List.mem_map] at hp
    obtain ⟨w, _, rfl⟩ := hp
    rfl
  · have hsnd : (by_w rs).map Prod.snd = WEEK_ORDER.map (fun w => weekdaySum rs w) := by
      simp [by_w, List.map_map]
    rw [hsnd, sum_weekdaySum rs hw]

/-- Witness for C4 on the spec's two test records (a Monday and a Tuesday
record): 7 entries in canonical order summing to 60. -/
theorem by_w_correct_witness :
    (∀ r ∈ [exRec1, exRec2], r.weekday ∈ WEEK_ORDER)
    ∧ ((by_w [exRec1, exRec2]).length = 7
        ∧ (by_w [exRec1, exRec2]).map Prod.fst = WEEK_ORDER
        ∧ (∀ p ∈ by_w [exRec1, exRec2], p.2 =
            (([exRec1, exRec2].filter (fun r => r.weekday == p.1)).map
              clampedFocused).sum)
        ∧ ((by_w [exRec1, exRec2]).map Prod.snd).sum
            = ([exRec1, exRec2].map clampedFocused).sum) :=
  ⟨by decide, by_w_correct [exRec1, exRec2] (by decide)⟩

/-! ### Deletion lemmas -/

lemma deleteBucket_eq_self (sid : String) (e : String × Day)
    (h : ∀ s ∈ e.2.sessions, s.id ≠ sid) : deleteBucket sid e = some e := by
  have hfe : e.2.sessions.filter (fun s => s.id ≠ sid) = e.2.sessions := by
    rw [List.filter_eq_self]
    intro s hs
    simpa using h s hs
  simp only [deleteBucket]
  rw [hfe]
  rw [if_neg (by simp)]

/-- C6: deleting an id that no stored session carries leaves the store
value-equal to before (a no-op, not an error); a bucket that the deletion
empties (one whose sessions all carry the deleted id) disappears from the
store keys; and no bucket of the result is empty when no bucket of the
input was. -/
theorem delete_session_correct :
    ∀ (st : Store) (sid : String),
      ((∀ e ∈ st, ∀ s ∈ e.2.sessions, s.id ≠ sid) → delete_session st sid = st)
      ∧ ((st.map Prod.fst).Nodup →
          ∀ e ∈ st, e.2.sessions ≠ [] → (∀ s ∈ e.2.sessions, s.id = sid) →
            e.1 ∉ (delete_session st sid).map Prod.fst)
      ∧ ((∀ e ∈ st, e.2.sessions ≠ []) →
          ∀ e ∈ delete_session st sid, e.2.sessions ≠ []) := by
  intro st sid
  refine ⟨?_, ?_, ?_⟩
  · intro h
    induction st with
    | nil => rfl
    | cons e st ih =>
      rw [delete_session, List.filterMap_cons,
        deleteBucket_eq_self sid e (h e (by simp))]
      rw [delete_session] at ih
      rw [ih (fun a ha s hs => h a (List.mem_cons_of_mem _ ha) s hs)]
  · intro hnd e he hne hall hcontra
    rw [List.mem_map] at hcontra
    obtain ⟨e', he', hfst⟩ := hcontra
    rw [delete_session, List.mem_filterMap] at he'
    obtain ⟨a, ha, hfa⟩ := he'
    have hkey : a.1 = e'.1 := by
      simp only [deleteBucket] at hfa
      split at hfa
      · exact absurd hfa (by simp)
      · obtain rfl : _ = e' := Option.some.inj hfa
        rfl
    have haeq : a = e := List.inj_on_of_nodup_map hnd ha he (hkey.trans hfst)
    subst haeq
    have hnil : a.2.sessions.filter (fun s => s.id ≠ sid) = [] := by
      rw [List.filter_eq_nil_iff]
      intro s hs
      simp [hall s hs]
    have hlen : a.2.sessions.length ≠ 0 := by
      intro h0
      exact hne (List.length_eq_zero.mp h0)
    simp only [deleteBucket] at hfa
    rw [hnil] at hfa
    rw [if_pos (by simp [hlen])] at hfa
    exact absurd hfa (by simp)
  · intro hinv e' he'
    rw [delete_session, List.mem_filterMap] at he'
    obtain ⟨a, ha, hfa⟩ := he'
    simp only [deleteBucket] at hfa
    split at hfa
    · exact absurd hfa (by simp)
    case isFalse hcond =>
      obtain rfl : _ = e' := Option.some.inj hfa
      intro hnil
      simp only at hnil
      apply hcond
      refine ⟨?_, by rw [hnil]; rfl⟩
      rw [hnil]
      simpa using fun h0 => hinv a ha (List.length_eq_zero.mp h0)

/-- A concrete session used in the store witnesses. -/
def exSess1 : Sess := ⟨"id1", "수학", "10:00", "11:00", 60, 60, 2, "t0"⟩

/-- A concrete one-bucket store, the result of one `add_session` call on the
empty store. -/
def exStore1 : Store := [("2025-01-06", ⟨"월", [exSess1]⟩)]

/-- Witness for C6: deleting an absent id from the concrete store is a
no-op, deleting the only session's id removes the bucket key, and no empty
bucket survives. -/
theorem delete_session_correct_witness :
    (delete_session exStore1 "zzz" = exStore1)
    ∧ (("2025-01-06" : String) ∉ (delete_session exStore1 "id1").map Prod.fst)
    ∧ (∀ e ∈ delete_session exStore1 "zzz", e.2.sessions ≠ []) :=
  ⟨(delete_session_correct exStore1 "zzz").1 (by decide),
   (delete_session_correct exStore1 "id1").2.1 (by decide)
     ("2025-01-06", ⟨"월", [exSess1]⟩) (by decide) (by decide) (by decide),
   (delete_session_correct exStore1 "zzz").2.2 (by decide)⟩

/-- C7: importing the exported snapshot of any store reachable through
`add_session` / `delete_session` sequences yields an in-memory store value
equal to the original, whatever store value it replaces. -/
theorem import_export_roundtrip :
    ∀ st : Store, Reachable st → ∀ cur : J,
      importSnapshot (exportStore st) cur = exportStore st := by
  intro st _ cur
  rfl

/-- Witness for C7 on the concrete reachable one-bucket store. -/
theorem import_export_roundtrip_witness :
    Reachable exStore1
    ∧ importSnapshot (exportStore exStore1) (J.num 0) = exportStore exStore1 :=
  ⟨Reachable.add Reachable.init
      (show add_session [] "2025-01-06" "월" "수학" "10:00" "11:00" 2 500 "id1" "t0"
          = some exStore1 by decide),
   import_export_roundtrip exStore1
     (Reachable.add Reachable.init
       (show add_session [] "2025-01-06" "월" "수학" "10:00" "11:00" 2 500 "id1" "t0"
           = some exStore1 by decide))
     (J.num 0)⟩

/-- C8: every session a successful `add_session` call adds to the store (any
session of the new store not present in a bucket of the old store) has
`duration_min` computed by `minutes_between`, `focused_min` equal to the raw
focused minutes clamped into `[0, duration_min]`, and `pause_count` floored
at 0, hence satisfies `0 ≤ focused_min ≤ duration_min` and
`pause_count ≥ 0`; a raw value 500 against duration 60 clamps to 60 and a
raw value -10 clamps to 0. -/
theorem add_session_clamping :
    (∀ (st : Store) (ds wd subject start stop : String) (pause focused : ℤ)
        (sid created : String) (st' : Store),
        add_session st ds wd subject start stop pause focused sid created = some st' →
        ∀ e ∈ st', ∀ s ∈ e.2.sessions,
          (∃ e0 ∈ st, s ∈ e0.2.sessions)
          ∨ (minutes_between start stop = some s.duration_min
              ∧ s.focused_min = clamp focused 0 s.duration_min
              ∧ s.pause_count = max 0 pause
              ∧ 0 ≤ s.focused_min ∧ s.focused_min ≤ s.duration_min
              ∧ 0 ≤ s.pause_count))
    ∧ (mk_session "i" "과목" "10:00" "11:00" 60 500 0 "t").focused_min = 60
    ∧ (mk_session "i" "과목" "10:00" "11:00" 60 (-10) 0 "t").focused_min = 0 := by
  refine ⟨?_, by decide, by decide⟩
  intro st ds wd subject start stop pause focused sid created st' hadd e he s hs
  cases hmb : minutes_between start stop with
  | none => rw [add_session, hmb] at hadd; exact absurd hadd (by simp)
  | some dur =>
    simp only [add_session, hmb, Option.some.injEq] at hadd
    subst hadd
    rw [List.mem_map] at he
    obtain ⟨a, ha, hfa⟩ := he
    have ha' : a ∈ st ∨ a = (ds, ⟨wd, []⟩) := by
      by_cases hany : st.any (fun e => e.1 == ds)
      · rw [if_pos hany] at ha; exact Or.inl ha
      · rw [if_neg hany] at ha
        rcases List.mem_append.mp ha with h | h
        · exact Or.inl h
        · simp at h; exact Or.inr h
    by_cases hk : a.1 = ds
    · rw [if_pos hk] at hfa
      subst hfa
      simp only at hs
      rcases List.mem_append.mp hs with hsold | hsnew
      · rcases ha' with hst | hnew
        · exact Or.inl ⟨a, hst, hsold⟩
        · rw [hnew] at hsold; simp at hsold
      · have hsess : s = mk_session sid subject start stop dur focused pause created := by
          simpa using hsnew
        subst hsess
        have hdb := minutes_between_bounds start stop dur hmb
        have hdm : (mk_session sid subject start stop dur focused pause
            created).duration_min = dur := rfl
        have hfm : (mk_session sid subject start stop dur focused pause
            created).focused_min = clamp focused 0 dur := rfl
        have hpc : (mk_session sid subject start stop dur focused pause
            created).pause_count = max 0 pause := rfl
        refine Or.inr ⟨?_, ?_, ?_, ?_, ?_, ?_⟩ <;>
          (try simp only [hdm, hfm, hpc]) <;>
          first
          | exact hmb
          | rfl
          | exact le_max_left 0 _
          | exact max_le (by omega) (min_le_left _ _)
    · rw [if_neg hk] at hfa
      subst hfa
      rcases ha' with hst | hnew
      · exact Or.inl ⟨a, hst, hs⟩
      · rw [hnew] at hk; simp at hk

/-- Witness for C8: the concrete `add_session` call behind `exStore1`
(raw focused minutes 500 against a 60-minute session). -/
theorem add_session_clamping_witness :
    (add_session [] "2025-01-06" "월" "수학" "10:00" "11:00" 2 500 "id1" "t0"
        = some exStore1)
    ∧ (("2025-01-06", (⟨"월", [exSess1]⟩ : Day)) ∈ exStore1)
    ∧ (exSess1 ∈ (⟨"월", [exSess1]⟩ : Day).sessions)
    ∧ ((∃ e0 ∈ ([] : Store), exSess1 ∈ e0.2.sessions)
        ∨ (minutes_between "10:00" "11:00" = some exSess1.duration_min
            ∧ exSess1.focused_min = clamp 500 0 exSess1.duration_min
            ∧ exSess1.pause_count = max 0 2
            ∧ 0 ≤ exSess1.focused_min
            ∧ exSess1.focused_min ≤ exSess1.duration_min
            ∧ 0 ≤ exSess1.pause_count)) :=
  ⟨by decide, by decide, by decide,
   add_session_clamping.1 [] "2025-01-06" "월" "수학" "10:00" "11:00" 2 500 "id1" "t0"
     exStore1 (by decide) ("2025-01-06", ⟨"월", [exSess1]⟩) (by decide) exSess1
     (by decide)⟩

end FocusDashboard
